import Mathlib

/-!
Verification of the frame-state computation and layout engine of the
`tct-models` animation scripts (`src/generate_tct_gif.py`).

The development shallowly embeds the four algorithmic components:

1. the text classifier (the segmentation phase of `draw_json_colored`,
   lines 211-268), which turns a JSON-like string into an ordered list of
   colored segments;
2. the greedy line-wrap layout engine (the drawing loop of
   `draw_json_colored`, lines 270-287), modelled as a pure function from
   segments, a measure function and a cursor to a list of placements;
3. the token-grid layout of `create_frame` (lines 107-114), with Python's
   `ZeroDivisionError` on `i // 0` modelled as `Option.none`;
4. the frame-schedule construction of `generate_animation`
   (lines 305-364) together with the per-step decode loop of `main`
   (lines 390-394) and the statistics line of `create_frame`
   (lines 176-183).

Color classes are the enum names of the spec; they stand for the concrete
hex constants of the source (`text` = plain, `json_key` = key,
`json_value` = value, `json_bracket` = bracket, `text_dim` = punct).
-/

/-- Coloring category of a segment.  These are the five color constants the
source assigns to `current_color`. -/
inductive ColorClass where
  | plain
  | key
  | value
  | bracket
  | punct
deriving DecidableEq, Repr

/-- A classified run of input text, `(text, color)` as appended to
`segments` in the source. -/
structure Segment where
  text : String
  color : ColorClass
deriving DecidableEq, Repr

/-- Mutable scanner state of the segmentation loop in `draw_json_colored`
(`in_string`, `in_key`, `escape_next`, `current_text`, `current_color`,
`segments`). -/
structure ClsState where
  inString : Bool
  inKey : Bool
  escapeNext : Bool
  currentText : List Char
  currentColor : ColorClass
  segments : List Segment
deriving DecidableEq, Repr

/-- `flush_segment` from the source: if the accumulator is non-empty,
append `(join current_text, current_color)` to `segments` and clear the
accumulator; otherwise do nothing. -/
def flush_segment (st : ClsState) : ClsState :=
  if st.currentText = [] then st
  else { st with
          segments := st.segments ++ [⟨String.mk st.currentText, st.currentColor⟩],
          currentText := [] }

/-- The key/value lookahead at an opening quote, from the source:
`rest = json_str[i+1:]`, `colon_pos = rest.find(chr 58)`,
`quote_pos = rest.find(chr 34)`,
`in_key = colon_pos != -1 and (quote_pos == -1 or colon_pos < quote_pos + 1)`.
Note the source scans with plain `find` (not escape-aware). -/
def isKeyLookahead (rest : List Char) : Bool :=
  match rest.findIdx? (fun c => c = ':'), rest.findIdx? (fun c => c = '\"') with
  | none, _ => false
  | some _, none => true
  | some colonPos, some quotePos => decide (colonPos < quotePos + 1)

/-- One step of the segmentation loop of `draw_json_colored` on character
`c`, where `rest` is the remaining input after `c` (used only by the
key/value lookahead).  Branch order matches the source: escaped character,
backslash, quote, bracket, punctuation (the latter guarded by
`not in_string`), default append. -/
def processChar (c : Char) (rest : List Char) (st : ClsState) : ClsState :=
  if st.escapeNext then
    { st with currentText := st.currentText ++ [c], escapeNext := false }
  else if c = '\\' then
    { st with escapeNext := true, currentText := st.currentText ++ [c] }
  else if c = '\"' then
    if st.inString then
      let st1 := flush_segment { st with currentText := st.currentText ++ [c] }
      { st1 with inString := false, inKey := false, currentColor := ColorClass.plain }
    else
      let st1 := flush_segment st
      let k := isKeyLookahead rest
      { st1 with
          inString := true, inKey := k,
          currentColor := if k then ColorClass.key else ColorClass.value,
          currentText := st1.currentText ++ [c] }
  else if c = '\x7b' ∨ c = '\x7d' ∨ c = '[' ∨ c = ']' then
    let st1 := flush_segment st
    let st2 := flush_segment { st1 with currentColor := ColorClass.bracket, currentText := [c] }
    { st2 with currentColor := ColorClass.plain }
  else if st.inString = false ∧ (c = ':' ∨ c = ',') then
    let st1 := flush_segment st
    let st2 := flush_segment { st1 with currentColor := ColorClass.punct, currentText := [c] }
    { st2 with currentColor := ColorClass.plain }
  else
    { st with currentText := st.currentText ++ [c] }

/-- Initial scanner state of the segmentation loop. -/
def initState : ClsState :=
  { inString := false, inKey := false, escapeNext := false,
    currentText := [], currentColor := ColorClass.plain, segments := [] }

/-- The segmentation loop: process each character with the rest of the
input as lookahead, and flush the trailing run at end of input. -/
def classifyChars : List Char → ClsState → ClsState
  | [], st => flush_segment st
  | c :: rest, st => classifyChars rest (processChar c rest st)

/-- `classify`: the segmentation phase of `draw_json_colored` as a pure
function from the input string to the emitted segment list. -/
def classify (s : String) : List Segment :=
  (classifyChars s.data initState).segments

/-- The characters covered by a segment list, in order. -/
def flatSegs (segs : List Segment) : List Char :=
  (segs.map (fun sg => sg.text.data)).flatten

/-- Concatenation of the text fields of a segment list, in order. -/
def concatTexts (segs : List Segment) : String :=
  segs.foldl (fun acc sg => acc ++ sg.text) ""

/-- Characters accounted for by a scanner state: the flushed segments plus
the pending accumulator. -/
def stateChars (st : ClsState) : List Char :=
  flatSegs st.segments ++ st.currentText

/-- A placed segment of the greedy line-wrap loop of `draw_json_colored`:
the segment's text and color together with the pixel position the loop
draws it at. -/
structure Placement where
  text : String
  color : ColorClass
  x : Nat
  y : Nat
deriving DecidableEq, Repr

/-- The greedy line-wrap loop of `draw_json_colored` (lines 270-287):
`measure` stands for `draw.textbbox` width measurement; `xm` is the left
margin `x`; `maxWidth` is `max_width`; the cursor starts at `(cx, cy)`.
A segment wraps exactly when `cursor_x + text_width > x + max_width` and
`cursor_x > x`; a wrap resets the cursor to the margin plus the fixed
continuation indent 20 and advances `cursor_y` by the line height 18.
The placed segment is drawn at the cursor, never split or altered. -/
def layoutSegs (measure : String → Nat) (xm maxWidth : Nat) :
    List Segment → Nat → Nat → List Placement
  | [], _cx, _cy => []
  | sg :: rest, cx, cy =>
    let w := measure sg.text
    if xm + maxWidth < cx + w ∧ xm < cx then
      ⟨sg.text, sg.color, xm + 20, cy + 18⟩ ::
        layoutSegs measure xm maxWidth rest (xm + 20 + w) (cy + 18)
    else
      ⟨sg.text, sg.color, cx, cy⟩ ::
        layoutSegs measure xm maxWidth rest (cx + w) cy

/-- Reading order on successive placements: the second is on a strictly
lower line, or on the same line not to the left of the first. -/
def readingOrder (p q : Placement) : Prop :=
  p.y < q.y ∨ (p.y = q.y ∧ p.x ≤ q.x)

/-- Tokens per grid row, from `create_frame` line 108:
`tokens_per_row = (width - 2 * padding) // token_spacing`, with
`availableWidth = width - 2 * padding` and `boxSpacing = token_spacing`.
There is no clamping in the source. -/
def tokensPerRow (availableWidth boxSpacing : Nat) : Nat :=
  availableWidth / boxSpacing

/-- Grid cell of token `index`, from `create_frame` lines 111-112:
`row = i // tokens_per_row`, `col = i % tokens_per_row`.  Python raises
`ZeroDivisionError` when `tokens_per_row` is zero; that failure is
modelled as `none`. -/
def gridPosition (index tpr : Nat) : Option (Nat × Nat) :=
  if tpr = 0 then none else some (index / tpr, index % tpr)

/-- One frame of the animation schedule: the arguments `generate_animation`
passes to `create_frame` (`visible_tokens`, `decoded_json`,
`utf8_byte_count`) together with the per-frame duration assigned in the
`durations` list at save time. -/
structure FrameSpec where
  visibleTokenCount : Nat
  decodedText : String
  utf8ByteCount : Nat
  holdDurationMs : Nat
deriving DecidableEq, Repr

/-- `len(s.encode(utf8))` of the source. -/
def utf8Len (s : String) : Nat := s.utf8ByteSize

/-- The per-step decode loop of `main` (lines 390-394): for each `i`,
decode the token prefix of length `i + 1` and record the decoded text
(the `consumed`/`surplus` components of the returned triple are unused,
as in the source). -/
def decodedStates {α : Type} (tokens : List α)
    (decodePrefixFn : List α → String × Nat × Nat) : List String :=
  (List.range tokens.length).map (fun i => (decodePrefixFn (tokens.take (i + 1))).1)

/-- The frame schedule of `generate_animation` (lines 305-364): one
initial zero-visibility frame, one frame per decode step (showing
`decoded or "\x7b\x7d"` and the decoded byte count), and one extra final
frame repeating the last decoded state.  Durations come from the save
call: every frame is held `frameDuration` ms except the last, held
`frameDuration * 3` ms. -/
def buildSchedule {α : Type} (tokens : List α)
    (decodePrefixFn : List α → String × Nat × Nat) (frameDuration : Nat) :
    List FrameSpec :=
  let states := decodedStates tokens decodePrefixFn
  let initial : FrameSpec := ⟨0, "", 0, frameDuration⟩
  let middle : List FrameSpec := states.enum.map (fun p =>
    ⟨p.1 + 1, if p.2 = "" then "\x7b\x7d" else p.2,
     if p.2 = "" then 0 else utf8Len p.2, frameDuration⟩)
  let finalDecoded : String :=
    match states.getLast? with
    | some d => d
    | none => "\x7b\x7d"
  let final : FrameSpec :=
    ⟨tokens.length, finalDecoded,
     if finalDecoded = "" then 0 else utf8Len finalDecoded, frameDuration * 3⟩
  initial :: (middle ++ [final])

/-- The statistics line of `create_frame` (lines 176-183): a numeric
compression line only when both counts are positive, otherwise the
placeholder marker `? bytes -> ? tokens`.  The displayed ratio
`utf8_byte_count / visible_tokens` is modelled exactly as a rational. -/
inductive StatsLine where
  | ratio (consumedBytes producedTokens : Nat) (r : ℚ)
  | placeholder
deriving DecidableEq, Repr

/-- `computeStats` of the spec, from `create_frame` lines 176-183. -/
def computeStats (utf8ByteCount visibleTokens : Nat) : StatsLine :=
  if 0 < visibleTokens ∧ 0 < utf8ByteCount then
    StatsLine.ratio utf8ByteCount visibleTokens
      ((utf8ByteCount : ℚ) / (visibleTokens : ℚ))
  else StatsLine.placeholder

/-- The input string of the end-to-end example (32 ASCII bytes). -/
def c4Input : String := "\x7b\"apiVersion\":\"v1\",\"kind\":\"Pod\"\x7d"

/-- The stub tokenizer output of the end-to-end example: 7 tokens. -/
def c4Tokens : List Nat := [101, 102, 103, 104, 105, 106, 107]

/-- The stub decode function of the end-to-end example: `""` for prefixes
of length < 7, the full input string at length 7. -/
def c4DecodeFn (pre : List Nat) : String × Nat × Nat :=
  if pre.length < 7 then ("", 0, 0) else (c4Input, 7, 0)

theorem flatSegs_append (l₁ l₂ : List Segment) :
    flatSegs (l₁ ++ l₂) = flatSegs l₁ ++ flatSegs l₂ := by
  simp [flatSegs]

theorem flush_segment_flat (st : ClsState) :
    flatSegs (flush_segment st).segments = flatSegs st.segments ++ st.currentText := by
  unfold flush_segment
  split
  · simp_all
  · simp [flatSegs_append, flatSegs]

theorem flush_segment_currentText (st : ClsState) :
    (flush_segment st).currentText = [] := by
  unfold flush_segment
  split <;> simp_all

theorem flush_segment_of_ne (st : ClsState) (h : ¬st.currentText = []) :
    flush_segment st =
      { st with
          segments := st.segments ++ [⟨String.mk st.currentText, st.currentColor⟩],
          currentText := [] } := by
  unfold flush_segment
  exact if_neg h

theorem flush_segment_inString (st : ClsState) :
    (flush_segment st).inString = st.inString := by
  unfold flush_segment
  split <;> rfl

theorem string_mk_ne_empty {l : List Char} (h : l ≠ []) : String.mk l ≠ "" := by
  intro he
  exact h (by simpa using congrArg String.data he)

theorem processChar_chars (c : Char) (rest : List Char) (st : ClsState) :
    stateChars (processChar c rest st) = stateChars st ++ [c] := by
  unfold processChar stateChars
  split_ifs <;>
    simp only [flush_segment_flat, flush_segment_currentText, List.append_assoc,
      List.nil_append, List.append_nil]

theorem classifyChars_chars (cs : List Char) (st : ClsState) :
    flatSegs (classifyChars cs st).segments = stateChars st ++ cs := by
  induction cs generalizing st with
  | nil =>
      simp [classifyChars, flush_segment_flat, stateChars]
  | cons c rest ih =>
      rw [classifyChars, ih, processChar_chars]
      simp

theorem concatTexts_data (segs : List Segment) :
    (concatTexts segs).data = flatSegs segs := by
  unfold concatTexts
  suffices h : ∀ (a : String), (segs.foldl (fun acc sg => acc ++ sg.text) a).data
      = a.data ++ flatSegs segs by
    simpa using h ""
  induction segs with
  | nil => intro a; simp [flatSegs]
  | cons sg rest ih =>
      intro a
      simp [List.foldl_cons, ih, flatSegs, String.data_append]

/-- C1: concatenating the text fields of all segments emitted by the
classifier, in emission order, yields exactly the input string — no
character is dropped, duplicated or reordered. -/
theorem classify_round_trip (s : String) :
    concatTexts (classify s) = s := by
  apply String.ext
  rw [concatTexts_data]
  unfold classify
  rw [classifyChars_chars]
  simp [stateChars, initState, flatSegs]

theorem flush_segment_nonempty (st : ClsState)
    (h : ∀ sg ∈ st.segments, sg.text ≠ "") :
    ∀ sg ∈ (flush_segment st).segments, sg.text ≠ "" := by
  unfold flush_segment
  split
  · exact h
  · intro sg hm
    rcases List.mem_append.1 hm with hm | hm
    · exact h sg hm
    · rcases List.mem_singleton.1 hm with rfl
      exact string_mk_ne_empty (by assumption)

theorem processChar_nonempty (c : Char) (rest : List Char) (st : ClsState)
    (h : ∀ sg ∈ st.segments, sg.text ≠ "") :
    ∀ sg ∈ (processChar c rest st).segments, sg.text ≠ "" := by
  unfold processChar
  split_ifs <;>
    first
      | exact h
      | exact flush_segment_nonempty _ h
      | exact flush_segment_nonempty _ (flush_segment_nonempty _ h)

theorem classifyChars_nonempty (cs : List Char) (st : ClsState)
    (h : ∀ sg ∈ st.segments, sg.text ≠ "") :
    ∀ sg ∈ (classifyChars cs st).segments, sg.text ≠ "" := by
  induction cs generalizing st with
  | nil => exact flush_segment_nonempty st h
  | cons c rest ih => exact ih _ (processChar_nonempty c rest st h)

/-- C10: every segment emitted by the classifier has non-empty text — the
flush step discards an empty accumulator, so no segment with `text = ""`
ever appears in the output. -/
theorem classify_segments_nonempty (s : String) :
    ∀ sg ∈ classify s, sg.text ≠ "" := by
  unfold classify
  exact classifyChars_nonempty s.data initState (by simp [initState])

/-- Witness for C10 at the concrete input `[`. -/
theorem classify_segments_nonempty_witness :
    Segment.mk "[" ColorClass.bracket ∈ classify "[" ∧
      (Segment.mk "[" ColorClass.bracket).text ≠ "" :=
  ⟨by decide, classify_segments_nonempty "[" (Segment.mk "[" ColorClass.bracket) (by decide)⟩

/-- C2 (code bug evaluation): on the input of the claim the classifier
colors the FIRST quoted run as a Value, not a Key.  At the opening quote
of the first run the lookahead finds the colon (index 2 of the rest) no
earlier than the run's own closing quote (index 1), so `in_key` is false;
the source's intent comment says the run should be a key since it is
followed by a colon. -/
theorem classify_key_example_eval :
    classify "\x7b\"a\":\"b\"\x7d" =
      [⟨"\x7b", ColorClass.bracket⟩, ⟨"\"a\"", ColorClass.value⟩,
       ⟨":", ColorClass.punct⟩, ⟨"\"b\"", ColorClass.value⟩,
       ⟨"\x7d", ColorClass.bracket⟩] := by decide

/-- C5 counterexample: inside a string, a bracket is NOT appended to the
current Key/Value run; it flushes the run and is emitted as a Bracket
segment (the claim's prediction — one single Value run — fails). -/
theorem bracket_in_string_counterexample :
    classify "\"a\x7bb\"" ≠ [⟨"\"a\x7bb\"", ColorClass.value⟩] ∧
      Segment.mk "\x7b" ColorClass.bracket ∈ classify "\"a\x7bb\"" := by decide

/-- C5 amended: a bracket character is always flushed and emitted as a
single-character Bracket segment, regardless of `inString` — the
`not in_string` guard of the source applies only to `:` and `,`.  The
pending run is flushed, the accumulator is cleared, the color resets to
Plain, and `inString` is left unchanged. -/
theorem bracket_always_emitted (st : ClsState) (c : Char) (rest : List Char)
    (he : st.escapeNext = false)
    (hc : c = '\x7b' ∨ c = '\x7d' ∨ c = '[' ∨ c = ']') :
    (processChar c rest st).segments =
        (flush_segment st).segments ++ [⟨String.mk [c], ColorClass.bracket⟩] ∧
      (processChar c rest st).currentText = [] ∧
      (processChar c rest st).currentColor = ColorClass.plain ∧
      (processChar c rest st).inString = st.inString := by
  have hb : c ≠ '\\' := by rcases hc with rfl | rfl | rfl | rfl <;> decide
  have hq : c ≠ '\"' := by rcases hc with rfl | rfl | rfl | rfl <;> decide
  unfold processChar
  rw [if_neg (by simp [he]), if_neg hb, if_neg hq, if_pos hc]
  refine ⟨?_, ?_, rfl, ?_⟩
  · simp [flush_segment_of_ne]
  · simp [flush_segment_currentText]
  · simp [flush_segment_inString]

/-- Witness for C5's amended theorem: a bracket arriving while inside a
Value string run. -/
theorem bracket_always_emitted_witness :
    (processChar '\x7b' []
        ⟨true, false, false, ['\"', 'a'], ColorClass.value, []⟩).segments =
        (flush_segment
          ⟨true, false, false, ['\"', 'a'], ColorClass.value, []⟩).segments ++
          [⟨String.mk ['\x7b'], ColorClass.bracket⟩] ∧
      (processChar '\x7b' []
        ⟨true, false, false, ['\"', 'a'], ColorClass.value, []⟩).currentText = [] ∧
      (processChar '\x7b' []
        ⟨true, false, false, ['\"', 'a'], ColorClass.value, []⟩).currentColor
          = ColorClass.plain ∧
      (processChar '\x7b' []
        ⟨true, false, false, ['\"', 'a'], ColorClass.value, []⟩).inString
          = (⟨true, false, false, ['\"', 'a'], ColorClass.value, []⟩ : ClsState).inString :=
  bracket_always_emitted ⟨true, false, false, ['\"', 'a'], ColorClass.value, []⟩
    '\x7b' [] rfl (Or.inl rfl)

theorem segment_eta (sg : Segment) : Segment.mk sg.text sg.color = sg := rfl

theorem layoutSegs_map_segment (measure : String → Nat) (xm maxWidth : Nat)
    (segs : List Segment) :
    ∀ cx cy, (layoutSegs measure xm maxWidth segs cx cy).map
        (fun p => Segment.mk p.text p.color) = segs := by
  induction segs with
  | nil => intro cx cy; rfl
  | cons sg rest ih =>
      intro cx cy
      rw [layoutSegs]
      split <;> simp [ih]

theorem layoutSegs_head_pos (measure : String → Nat) (xm maxWidth : Nat)
    (segs : List Segment) (cx cy : Nat) (p : Placement)
    (hp : (layoutSegs measure xm maxWidth segs cx cy).head? = some p) :
    (p.x = cx ∧ p.y = cy) ∨ (p.x = xm + 20 ∧ p.y = cy + 18) := by
  match segs with
  | [] => simp [layoutSegs] at hp
  | sg :: rest =>
      rw [layoutSegs] at hp
      split at hp <;> rw [List.head?_cons, Option.some_inj] at hp <;> subst hp <;> simp

theorem layoutSegs_chain (measure : String → Nat) (xm maxWidth : Nat)
    (segs : List Segment) :
    ∀ cx cy, List.Chain' readingOrder (layoutSegs measure xm maxWidth segs cx cy) := by
  induction segs with
  | nil => intro cx cy; simp [layoutSegs]
  | cons sg rest ih =>
      intro cx cy
      rw [layoutSegs]
      split <;>
      · rw [List.chain'_cons']
        refine ⟨?_, ih _ _⟩
        intro q hq
        rcases layoutSegs_head_pos measure xm maxWidth rest _ _ q hq with ⟨hx, hy⟩ | ⟨hx, hy⟩ <;>
          simp [readingOrder, hx, hy, Nat.le_add_right]

/-- C6: for every segment sequence, measure function, margin, maximum
width and starting cursor, the layout engine places each input segment
exactly once and in input order (so the concatenation of placed texts is
the concatenation of the input texts), and successive placements are in
reading order — in particular the vertical position never decreases. -/
theorem layout_preserves_order (measure : String → Nat) (xm maxWidth cx cy : Nat)
    (segs : List Segment) :
    (layoutSegs measure xm maxWidth segs cx cy).map
        (fun p => Segment.mk p.text p.color) = segs ∧
      concatTexts ((layoutSegs measure xm maxWidth segs cx cy).map
        (fun p => Segment.mk p.text p.color)) = concatTexts segs ∧
      List.Chain' readingOrder (layoutSegs measure xm maxWidth segs cx cy) ∧
      List.Chain' (fun p q => p.y ≤ q.y) (layoutSegs measure xm maxWidth segs cx cy) := by
  refine ⟨layoutSegs_map_segment measure xm maxWidth segs cx cy, ?_, ?_, ?_⟩
  · rw [layoutSegs_map_segment]
  · exact layoutSegs_chain measure xm maxWidth segs cx cy
  · refine (layoutSegs_chain measure xm maxWidth segs cx cy).imp ?_
    intro p q h
    rcases h with h | ⟨h, _⟩
    · exact Nat.le_of_lt h
    · exact Nat.le_of_eq h

/-- C7: a segment is never split or altered (first conjunct, for any
widths, including a measured width exceeding `maxWidth`); when the cursor
is at the left margin the segment is placed at the current cursor
whatever its width, so a line break happens only when a segment was
already placed on the line (second conjunct); and when a break does
happen the continuation starts at the left margin plus the fixed indent
20, one line height 18 further down (third conjunct).  The layout
function is total: nothing is raised. -/
theorem layout_no_split (measure : String → Nat) (xm maxWidth cx cy : Nat)
    (sg : Segment) (rest : List Segment) :
    ((layoutSegs measure xm maxWidth (sg :: rest) cx cy).map
        (fun p => Segment.mk p.text p.color) = sg :: rest) ∧
      (cx = xm →
        (layoutSegs measure xm maxWidth (sg :: rest) cx cy).head? =
          some ⟨sg.text, sg.color, cx, cy⟩) ∧
      (xm < cx → xm + maxWidth < cx + measure sg.text →
        (layoutSegs measure xm maxWidth (sg :: rest) cx cy).head? =
          some ⟨sg.text, sg.color, xm + 20, cy + 18⟩) := by
  refine ⟨layoutSegs_map_segment measure xm maxWidth (sg :: rest) cx cy, ?_, ?_⟩
  · intro hx
    rw [layoutSegs]
    rw [if_neg (by subst hx; simp)]
    rfl
  · intro h1 h2
    rw [layoutSegs]
    rw [if_pos ⟨h2, h1⟩]
    rfl

/-- Witness for C7: a single segment of measured width 6 with
`maxWidth = 3`, cursor at the margin — placed whole at the cursor. -/
theorem layout_no_split_witness :
    (layoutSegs String.length 0 3 [⟨"abcdef", ColorClass.plain⟩] 0 0).head? =
      some ⟨"abcdef", ColorClass.plain, 0, 0⟩ :=
  (layout_no_split String.length 0 3 0 0 ⟨"abcdef", ColorClass.plain⟩ []).2.1 rfl

/-- C3 counterexample: with `availableWidth = 1` (so `availableWidth ≥ 1`)
and `boxSpacing = 56` (the source's `token_spacing`), `tokens_per_row`
is 0 — it is NOT clamped to 1 — and the row/column computation divides by
zero (raises, modelled as `none`). -/
theorem grid_no_clamp_counterexample :
    tokensPerRow 1 56 = 0 ∧ gridPosition 0 (tokensPerRow 1 56) = none := by decide

/-- C3 amended: `row = index div tokensPerRow` and
`column = index mod tokensPerRow` with
`tokensPerRow = floor(availableWidth / boxSpacing)`, but only when
`availableWidth ≥ boxSpacing` (so `tokensPerRow ≥ 1`); there is no
clamping, and whenever `availableWidth < boxSpacing` the computation
divides by zero for every index. -/
theorem grid_position_eval (index availableWidth boxSpacing : Nat)
    (hbs : 0 < boxSpacing) :
    (boxSpacing ≤ availableWidth →
        gridPosition index (tokensPerRow availableWidth boxSpacing) =
          some (index / tokensPerRow availableWidth boxSpacing,
                index % tokensPerRow availableWidth boxSpacing)) ∧
      (availableWidth < boxSpacing →
        gridPosition index (tokensPerRow availableWidth boxSpacing) = none) := by
  constructor
  · intro hle
    have hpos : 0 < tokensPerRow availableWidth boxSpacing := Nat.div_pos hle hbs
    rw [gridPosition, if_neg (Nat.pos_iff_ne_zero.1 hpos)]
  · intro hlt
    have hz : tokensPerRow availableWidth boxSpacing = 0 := Nat.div_eq_of_lt hlt
    rw [gridPosition, if_pos hz]

/-- Witness for C3's amended theorem at the source's default geometry
(`width = 700`, `padding = 25`, `token_spacing = 56`,
`availableWidth = 650`) and at a degenerate width. -/
theorem grid_position_eval_witness :
    gridPosition 23 (tokensPerRow 650 56) = some (23 / 11, 23 % 11) ∧
      gridPosition 23 (tokensPerRow 40 56) = none :=
  ⟨((grid_position_eval 23 650 56 (by decide)).1 (by decide)).trans (by decide),
   (grid_position_eval 23 40 56 (by decide)).2 (by decide)⟩

/-- C9: the statistics computation with `visibleTokenCount = 0` does not
divide: it always yields the placeholder marker (first conjunct); the
numeric ratio `consumedBytes / visibleTokenCount` is produced only under
positive counts (second conjunct). -/
theorem compute_stats_zero_guard (b v : Nat) :
    computeStats b 0 = StatsLine.placeholder ∧
      (0 < v → 0 < b →
        computeStats b v = StatsLine.ratio b v ((b : ℚ) / (v : ℚ))) := by
  constructor
  · simp [computeStats]
  · intro hv hb
    rw [computeStats, if_pos ⟨hv, hb⟩]

/-- Witness for C9 at the concrete counts of the end-to-end example. -/
theorem compute_stats_zero_guard_witness :
    computeStats 32 0 = StatsLine.placeholder ∧
      computeStats 32 7 = StatsLine.ratio 32 7 ((32 : ℚ) / (7 : ℚ)) :=
  ⟨(compute_stats_zero_guard 32 7).1,
   (compute_stats_zero_guard 32 7).2 (by decide) (by decide)⟩

theorem enum_map_fst_add_one {β : Type} (l : List β) :
    l.enum.map (fun p => p.1 + 1) = (List.range l.length).map (fun i => i + 1) := by
  rw [← List.enum_map_fst l, List.map_map]
  rfl

theorem visible_counts_shape {α : Type} (tokens : List α)
    (decodePrefixFn : List α → String × Nat × Nat) (frameDuration : Nat) :
    (buildSchedule tokens decodePrefixFn frameDuration).map
        (fun fr => fr.visibleTokenCount) =
      List.range (tokens.length + 1) ++ [tokens.length] := by
  have hlen : (decodedStates tokens decodePrefixFn).length = tokens.length := by
    simp [decodedStates]
  have hmid : ((decodedStates tokens decodePrefixFn).enum.map (fun p =>
      (⟨p.1 + 1, if p.2 = "" then "\x7b\x7d" else p.2,
        if p.2 = "" then 0 else utf8Len p.2, frameDuration⟩ : FrameSpec))).map
        (fun fr => fr.visibleTokenCount)
      = (List.range tokens.length).map (fun i => i + 1) := by
    rw [List.map_map, ← hlen]
    exact enum_map_fst_add_one _
  simp only [buildSchedule, List.map_cons, List.map_append]
  rw [hmid, List.range_succ_eq_map, List.cons_append]
  rfl

/-- C8: for every token sequence, decode function and base duration, the
schedule's `visibleTokenCount`s are exactly `0, 1, …, N, N`
(`N = len(tokens)`): they start at 0, increase by one per decode step,
are monotonically non-decreasing, and terminate at `N`, with the final
frame held for `finalHoldMultiplier = 3` times the base duration. -/
theorem schedule_monotonicity {α : Type} (tokens : List α)
    (decodePrefixFn : List α → String × Nat × Nat) (frameDuration : Nat) :
    ((buildSchedule tokens decodePrefixFn frameDuration).map
        (fun fr => fr.visibleTokenCount) =
      List.range (tokens.length + 1) ++ [tokens.length]) ∧
      List.Chain' (fun a b => a ≤ b)
        ((buildSchedule tokens decodePrefixFn frameDuration).map
          (fun fr => fr.visibleTokenCount)) ∧
      ((buildSchedule tokens decodePrefixFn frameDuration).getLast?.map
        (fun fr => fr.visibleTokenCount) = some tokens.length) ∧
      ((buildSchedule tokens decodePrefixFn frameDuration).getLast?.map
        (fun fr => fr.holdDurationMs) = some (frameDuration * 3)) := by
  refine ⟨visible_counts_shape tokens decodePrefixFn frameDuration, ?_, ?_, ?_⟩
  · rw [visible_counts_shape]
    apply List.chain'_append.2
    refine ⟨?_, List.chain'_singleton _, ?_⟩
    · exact (List.chain'_range_succ _ _).2 (fun m _ => Nat.le_succ m)
    · intro x hx y hy
      rw [List.range_succ, List.getLast?_concat, Option.mem_def,
        Option.some_inj] at hx
      rw [List.head?_cons, Option.mem_def, Option.some_inj] at hy
      subst hx
      subst hy
      exact Nat.le_refl _
  · rw [show buildSchedule tokens decodePrefixFn frameDuration =
      ((⟨0, "", 0, frameDuration⟩ : FrameSpec) ::
        (decodedStates tokens decodePrefixFn).enum.map (fun p =>
          (⟨p.1 + 1, if p.2 = "" then "\x7b\x7d" else p.2,
            if p.2 = "" then 0 else utf8Len p.2, frameDuration⟩ : FrameSpec))) ++
        [_] from rfl, List.getLast?_concat]
    rfl
  · rw [show buildSchedule tokens decodePrefixFn frameDuration =
      ((⟨0, "", 0, frameDuration⟩ : FrameSpec) ::
        (decodedStates tokens decodePrefixFn).enum.map (fun p =>
          (⟨p.1 + 1, if p.2 = "" then "\x7b\x7d" else p.2,
            if p.2 = "" then 0 else utf8Len p.2, frameDuration⟩ : FrameSpec))) ++
        [_] from rfl, List.getLast?_concat]
    rfl

/-- C4 counterexample: the end-to-end example yields
`leadingFrames + 7 + 1 = 9` frames (the builder appends an extra held
copy of the last frame), not `leadingFrames + 7 = 8` as claimed
(`leadingFrames = 1` in the source: the single initial frame). -/
theorem schedule_example_counterexample :
    (buildSchedule c4Tokens c4DecodeFn 800).length ≠ 1 + 7 ∧
      (buildSchedule c4Tokens c4DecodeFn 800).length = 1 + 7 + 1 := by decide

/-- C4 amended: the end-to-end example yields `leadingFrames + 7 + 1`
frames (`leadingFrames = 1`); the last frame has `holdDurationMs` equal
to `perTokenHoldMs * finalHoldMultiplier` (`800 * 3`) and its statistics
ratio equals `byteLength(input) / 7 = 32 / 7`. -/
theorem schedule_example_eval :
    (buildSchedule c4Tokens c4DecodeFn 800).length = 1 + 7 + 1 ∧
      ((buildSchedule c4Tokens c4DecodeFn 800).getLast?.map
        (fun fr => fr.holdDurationMs)) = some (800 * 3) ∧
      utf8Len c4Input = 32 ∧
      ((buildSchedule c4Tokens c4DecodeFn 800).getLast?.map
        (fun fr => computeStats fr.utf8ByteCount fr.visibleTokenCount)) =
        some (StatsLine.ratio 32 7 ((32 : ℚ) / (7 : ℚ))) := by
  have hlast : (buildSchedule c4Tokens c4DecodeFn 800).getLast? =
      some ⟨7, c4Input, 32, 2400⟩ := by decide
  refine ⟨by decide, ?_, by decide, ?_⟩
  · rw [hlast]
    rfl
  · rw [hlast]
    show some (computeStats 32 7) = _
    rw [computeStats, if_pos ⟨by decide, by decide⟩, Option.some_inj]
    norm_num
